import Mathlib

/-!
Verification of the irclog2html search-and-serve gateway
(`src/irclog2html/irclogsearch.py` and `src/irclog2html/irclogserver.py`).

Strings are modelled as `List Char` (`Str`), bytes as `List Nat`.  The
external collaborators (transcript parser, renderer, file-set resolver,
byte decoder) are passed in as parameters or modelled from the spec where
noted, exactly at the interfaces the source uses.
-/

/-- Python strings, modelled as lists of characters. -/
abbrev Str := List Char

/-- Python `str.lower()`, modelled character-wise. -/
def lowerStr (s : Str) : Str := s.map Char.toLower

/-- One parsed log event, as produced by the external `LogParser`:
the `(event, info)` pair of the source, as a tagged variant.
`comment` is `(LogParser.COMMENT, (nick, text))`; `nickchange` is
`(LogParser.NICKCHANGE, (text, oldnick, newnick))`; `other` is any other
event tag with its plain text `info`. -/
inductive LogEvent
  | comment (nick text : Str)
  | nickchange (text oldnick newnick : Str)
  | other (kind : Str) (text : Str)
deriving DecidableEq

/-- One `(timestamp, event, info)` row yielded by `parse_log_file`. -/
structure TimedEvent where
  time : Str
  event : LogEvent
deriving DecidableEq

/-- `SearchStats` from irclogsearch.py: counters `files`, `lines`, `matches`. -/
structure SearchStats where
  files : Nat
  lines : Nat
  matchesFound : Nat
deriving DecidableEq

/-- A log-file descriptor as produced by `find_log_files`
(`LogFile` of logs2html): filename, extracted date, relative link. -/
structure LogFileDesc where
  filename : Str
  date : Nat
  link : Str
deriving DecidableEq

/-- `SearchResult` from irclogsearch.py: the original event and its
timestamp, date and link, carried unmodified. -/
structure SearchResult where
  filename : Str
  link : Str
  date : Nat
  time : Str
  event : LogEvent
deriving DecidableEq

/-- The flattened text the engine matches against, per event variant
(from the body of `search_irc_logs`): Comment → `nick + ' ' + text`,
NickChange → the announcement `text` alone, any other event → its text. -/
def flattenText : LogEvent → Str
  | .comment nick text => nick ++ (' ' :: text)
  | .nickchange text _ _ => text
  | .other _ text => text

/-- The numeric value of a digit character. -/
def digitVal (c : Char) : Nat := c.toNat - 48

/-- Modelled from the spec: the fixed four-digit-year/two-digit-month/
two-digit-day pattern (`DATE_REGEXP`, used by `find_log_files` in
logs2html, which is not under src/).  Tries to read a `YYYY-MM-DD` token
at the head of the string, returning the date encoded as
`y * 10000 + m * 100 + d`. -/
def dateAt : Str → Option Nat
  | a :: b :: c :: d :: '-' :: e :: f :: '-' :: g :: h :: _ =>
    if a.isDigit && b.isDigit && c.isDigit && d.isDigit &&
       e.isDigit && f.isDigit && g.isDigit && h.isDigit then
      some (((digitVal a * 1000 + digitVal b * 100 + digitVal c * 10 + digitVal d) * 10000)
            + (digitVal e * 10 + digitVal f) * 100 + (digitVal g * 10 + digitVal h))
    else none
  | _ => none

/-- Modelled from the spec: extraction of the date token from a filename
(part of `find_log_files`, not under src/).  Scans for a `YYYY-MM-DD`
token; `none` when the filename contains no such token. -/
def extractDate : Str → Option Nat
  | [] => none
  | c :: rest =>
    match dateAt (c :: rest) with
    | some d => some d
    | none => extractDate rest

/-- Modelled from the spec: construction of one descriptor of
`find_log_files` (not under src/) — a file whose name contains a date
token is annotated with that date and a stable relative link; a file
without one is skipped. -/
def mkDesc (fn : Str) : Option LogFileDesc :=
  (extractDate fn).map (fun d => ⟨fn, d, fn ++ ".html".toList⟩)

/-- Date order on descriptors, used for the index sort. -/
def dateLE (a b : LogFileDesc) : Prop := a.date ≤ b.date

instance : DecidableRel dateLE := fun a b => Nat.decLe a.date b.date

instance : IsTotal LogFileDesc dateLE := ⟨fun a b => Nat.le_total a.date b.date⟩

instance : IsTrans LogFileDesc dateLE := ⟨fun _ _ _ => Nat.le_trans⟩

/-- Modelled from the spec: `find_log_files` (from logs2html, not under
src/).  Given the filenames the external file-set resolver produced, in
whatever order, it keeps exactly those containing a date token and
returns them sorted by date, oldest first; `search_irc_logs` reverses
this list to get newest first. -/
def find_log_files (raw : List Str) : List LogFileDesc :=
  List.insertionSort dateLE (raw.filterMap mkDesc)

/-- The `SearchResult(...)` constructed at the yield of
`search_irc_logs`. -/
def mkResult (f : LogFileDesc) (te : TimedEvent) : SearchResult :=
  ⟨f.filename, f.link, f.date, te.time, te.event⟩

/-- The match test of `search_irc_logs`: `query in text.lower()` where
`query` has already been lowercased once and `text` is the flattened
event text. -/
def eventMatches (lq : Str) (te : TimedEvent) : Bool :=
  decide (lq <:+: lowerStr (flattenText te.event))

/-- The inner loop of `search_irc_logs` over the rows of one log file:
per row, increment `stats.lines`, and on a match increment
`stats.matches` and yield a `SearchResult`. -/
def searchEvents (lq : Str) (f : LogFileDesc) :
    List TimedEvent → SearchStats → List SearchResult × SearchStats
  | [], st => ([], st)
  | te :: rest, st =>
    let st1 : SearchStats := { st with lines := st.lines + 1 }
    if eventMatches lq te then
      let st2 : SearchStats := { st1 with matchesFound := st1.matchesFound + 1 }
      let r := searchEvents lq f rest st2
      (mkResult f te :: r.1, r.2)
    else
      searchEvents lq f rest st1

/-- The outer loop of `search_irc_logs`: per file, increment
`stats.files`, then scan the parsed rows of that file.  The external
parser (`parse_log_file` / `LogParser`) is the `contents` parameter,
giving the rows of each filename. -/
def searchFiles (lq : Str) (contents : Str → List TimedEvent) :
    List LogFileDesc → SearchStats → List SearchResult × SearchStats
  | [], st => ([], st)
  | f :: rest, st =>
    let st1 : SearchStats := { st with files := st.files + 1 }
    let r1 := searchEvents lq f (contents f.filename) st1
    let r2 := searchFiles lq contents rest r1.2
    (r1.1 ++ r2.1, r2.2)

/-- `search_irc_logs` from irclogsearch.py: lowercase the query once,
take the file index, reverse it (newest first), and scan.  The yielded
sequence is returned as a list together with the final stats. -/
def search_irc_logs (query : Str) (stats : SearchStats) (raw : List Str)
    (contents : Str → List TimedEvent) : List SearchResult × SearchStats :=
  searchFiles (lowerStr query) contents (find_log_files raw).reverse stats

/-- The file list `search_irc_logs` iterates over. -/
def fileList (raw : List Str) : List LogFileDesc :=
  (find_log_files raw).reverse

/-- Fresh all-zero stats, as `SearchStats()` constructs them. -/
def zeroStats : SearchStats := ⟨0, 0, 0⟩

-- Basic lemmas about the engine.

theorem searchEvents_results_eq (lq : Str) (f : LogFileDesc) :
    ∀ (evs : List TimedEvent) (st : SearchStats),
      (searchEvents lq f evs st).1 = (evs.filter (eventMatches lq)).map (mkResult f) := by
  intro evs
  induction evs with
  | nil => intro st; rfl
  | cons te rest ih =>
    intro st
    simp only [searchEvents, List.filter_cons]
    by_cases h : eventMatches lq te
    · simp [h, ih]
    · simp [h, ih]

theorem searchEvents_stats_eq (lq : Str) (f : LogFileDesc) :
    ∀ (evs : List TimedEvent) (st : SearchStats),
      (searchEvents lq f evs st).2 =
        ⟨st.files, st.lines + evs.length,
         st.matchesFound + (evs.filter (eventMatches lq)).length⟩ := by
  intro evs
  induction evs with
  | nil => intro st; simp [searchEvents]
  | cons te rest ih =>
    intro st
    simp only [searchEvents, List.filter_cons]
    by_cases h : eventMatches lq te
    · simp only [h, if_true, ih]
      simp [Nat.add_comm, Nat.add_assoc, Nat.add_left_comm]
    · simp only [h, if_false, ih, Bool.false_eq_true]
      simp [Nat.add_comm, Nat.add_assoc, Nat.add_left_comm]

/-- Per-file result block: what one file contributes to the yielded
sequence (independent of the running stats). -/
def perFile (lq : Str) (contents : Str → List TimedEvent) (f : LogFileDesc) :
    List SearchResult :=
  ((contents f.filename).filter (eventMatches lq)).map (mkResult f)

theorem searchFiles_results_eq (lq : Str) (contents : Str → List TimedEvent) :
    ∀ (files : List LogFileDesc) (st : SearchStats),
      (searchFiles lq contents files st).1 = (files.map (perFile lq contents)).flatten := by
  intro files
  induction files with
  | nil => intro st; rfl
  | cons f rest ih =>
    intro st
    simp only [searchFiles, List.map_cons, List.flatten_cons, ih,
      searchEvents_results_eq]
    rfl

theorem searchFiles_stats_eq (lq : Str) (contents : Str → List TimedEvent) :
    ∀ (files : List LogFileDesc) (st : SearchStats),
      (searchFiles lq contents files st).2 =
        ⟨st.files + files.length,
         st.lines + (files.map (fun f => (contents f.filename).length)).sum,
         st.matchesFound + (files.map (fun f => (perFile lq contents f).length)).sum⟩ := by
  intro files
  induction files with
  | nil => intro st; rfl
  | cons f rest ih =>
    intro st
    simp only [searchFiles, ih, searchEvents_stats_eq, List.map_cons, List.sum_cons]
    simp [perFile, Nat.add_comm, Nat.add_assoc, Nat.add_left_comm]

theorem perFile_date (lq : Str) (contents : Str → List TimedEvent)
    (f : LogFileDesc) : ∀ r ∈ perFile lq contents f, r.date = f.date := by
  intro r hr
  rcases List.mem_map.1 hr with ⟨te, _, rfl⟩
  rfl

/-- C1: every yielded result's flattened text contains the query as a
case-insensitive substring (soundness); every event of a file in the
index whose flattened text contains it is yielded (completeness); an
explicit empty-string query matches every event with no special case. -/
theorem search_irc_logs_sound_complete (q : Str) (raw : List Str)
    (contents : Str → List TimedEvent) :
    (∀ r ∈ (search_irc_logs q zeroStats raw contents).1,
        lowerStr q <:+: lowerStr (flattenText r.event)) ∧
    (∀ f ∈ fileList raw, ∀ te ∈ contents f.filename,
        lowerStr q <:+: lowerStr (flattenText te.event) →
        mkResult f te ∈ (search_irc_logs q zeroStats raw contents).1) ∧
    (q = [] → ∀ f ∈ fileList raw, ∀ te ∈ contents f.filename,
        mkResult f te ∈ (search_irc_logs q zeroStats raw contents).1) := by
  have hres : (search_irc_logs q zeroStats raw contents).1
      = ((fileList raw).map (perFile (lowerStr q) contents)).flatten := by
    simp [search_irc_logs, searchFiles_results_eq, fileList]
  refine ⟨?_, ?_, ?_⟩
  · intro r hr
    rw [hres] at hr
    rcases List.mem_flatten.1 hr with ⟨l, hl, hrl⟩
    rcases List.mem_map.1 hl with ⟨f, _, rfl⟩
    rcases List.mem_map.1 hrl with ⟨te, hte, rfl⟩
    have := (List.mem_filter.1 hte).2
    have hm : lowerStr q <:+: lowerStr (flattenText te.event) :=
      of_decide_eq_true this
    exact hm
  · intro f hf te hte hmatch
    rw [hres]
    refine List.mem_flatten_of_mem (List.mem_map_of_mem (perFile (lowerStr q) contents) hf) ?_
    refine List.mem_map_of_mem (mkResult f) ?_
    exact List.mem_filter.2 ⟨hte, decide_eq_true hmatch⟩
  · intro hq f hf te hte
    rw [hres]
    refine List.mem_flatten_of_mem (List.mem_map_of_mem (perFile (lowerStr q) contents) hf) ?_
    refine List.mem_map_of_mem (mkResult f) ?_
    refine List.mem_filter.2 ⟨hte, decide_eq_true ?_⟩
    subst hq
    exact List.nil_infix

/-- Witness for C1 at a one-file, one-event corpus: `"HI"` is found
case-insensitively inside a comment event. -/
theorem search_irc_logs_sound_complete_witness :
    mkResult ⟨"a.2024-01-02.log".toList, 20240102, "a.2024-01-02.log".toList ++ ".html".toList⟩
        ⟨"12:00".toList, .comment "bob".toList "Say HI now".toList⟩
      ∈ (search_irc_logs "HI".toList zeroStats ["a.2024-01-02.log".toList]
          (fun _ => [⟨"12:00".toList, .comment "bob".toList "Say HI now".toList⟩])).1 :=
  (search_irc_logs_sound_complete "HI".toList ["a.2024-01-02.log".toList]
      (fun _ => [⟨"12:00".toList, .comment "bob".toList "Say HI now".toList⟩])).2.1
    _ (by decide) _ (by decide) (by decide)

/-- C2: whatever order the external file-set resolver returned the
filenames in, the list `search_irc_logs` iterates over is ordered newest
date first, and therefore a result from a strictly more recent file is
always yielded before any result from an older file (the dates of the
yielded sequence never increase). -/
theorem search_irc_logs_newest_first (q : Str) (raw : List Str)
    (contents : Str → List TimedEvent) (st : SearchStats) :
    List.Pairwise (fun a b : LogFileDesc => b.date ≤ a.date) (fileList raw) ∧
    List.Pairwise (fun r s : SearchResult => s.date ≤ r.date)
      (search_irc_logs q st raw contents).1 := by
  have hsorted : List.Pairwise dateLE (find_log_files raw) :=
    List.sorted_insertionSort dateLE (raw.filterMap mkDesc)
  have hfiles : List.Pairwise (fun a b : LogFileDesc => b.date ≤ a.date) (fileList raw) := by
    rw [fileList, List.pairwise_reverse]
    exact hsorted
  refine ⟨hfiles, ?_⟩
  have hres : (search_irc_logs q st raw contents).1
      = ((fileList raw).map (perFile (lowerStr q) contents)).flatten := by
    simp [search_irc_logs, searchFiles_results_eq, fileList]
  rw [hres]
  rw [List.pairwise_flatten]
  constructor
  · intro l hl
    rcases List.mem_map.1 hl with ⟨f, _, rfl⟩
    refine List.pairwise_of_forall_mem_list ?_
    intro a ha b hb
    rw [perFile_date (lowerStr q) contents f a ha,
        perFile_date (lowerStr q) contents f b hb]
  · rw [List.pairwise_map]
    refine hfiles.imp ?_
    intro a b hab x hx y hy
    rw [perFile_date (lowerStr q) contents a x hx,
        perFile_date (lowerStr q) contents b y hy]
    exact hab

/-- C10: the yielded result sequence is independent of the `stats`
argument — for any two initial accumulators (in particular the discarded
fresh one substituted for `None` and any caller-supplied fresh one) the
sequences are identical; the stats object only records. -/
theorem search_irc_logs_stats_independent (q : Str) (raw : List Str)
    (contents : Str → List TimedEvent) (s1 s2 : SearchStats) :
    (search_irc_logs q s1 raw contents).1 = (search_irc_logs q s2 raw contents).1 := by
  simp [search_irc_logs, searchFiles_results_eq]

theorem searchEvents_matches_len (lq : Str) (f : LogFileDesc)
    (evs : List TimedEvent) (st : SearchStats) :
    (searchEvents lq f evs st).2.matchesFound
      = st.matchesFound + (searchEvents lq f evs st).1.length := by
  rw [searchEvents_stats_eq, searchEvents_results_eq]
  simp

theorem searchFiles_matches_len (lq : Str) (contents : Str → List TimedEvent)
    (files : List LogFileDesc) (st : SearchStats) :
    (searchFiles lq contents files st).2.matchesFound
      = st.matchesFound + (searchFiles lq contents files st).1.length := by
  rw [searchFiles_stats_eq, searchFiles_results_eq]
  simp [List.map_map, Function.comp_def]

theorem sum_map_le_sum_map {α : Type} (l : List α) (f g : α → Nat)
    (h : ∀ a ∈ l, f a ≤ g a) : (l.map f).sum ≤ (l.map g).sum := by
  induction l with
  | nil => simp
  | cons a rest ih =>
    simp only [List.map_cons, List.sum_cons]
    exact Nat.add_le_add (h a (List.mem_cons_self a rest))
      (ih (fun b hb => h b (List.mem_cons_of_mem a hb)))

/-- The state of the generator at an intermediate suspension point: the
first `n` files of the iterated list fully scanned, then the first `m`
rows of the next file (whose `files` counter has already been bumped, as
the source bumps it before parsing). -/
def runUpTo (lq : Str) (contents : Str → List TimedEvent)
    (files : List LogFileDesc) (n m : Nat) (st : SearchStats) :
    List SearchResult × SearchStats :=
  let r1 := searchFiles lq contents (files.take n) st
  match files.drop n with
  | [] => r1
  | f :: _ =>
    let st2 : SearchStats := { r1.2 with files := r1.2.files + 1 }
    let r2 := searchEvents lq f ((contents f.filename).take m) st2
    (r1.1 ++ r2.1, r2.2)

/-- C4: for a completed search, `matches ≤ lines`, `lines` is the total
number of events parsed across the scanned files, `files` is the number
of files in the index, and `matches` equals the number of yielded
results; moreover at every intermediate suspension point (any `n` files
plus `m` rows of the next) the matches counter equals the number of
results yielded so far, which form a prefix of the full sequence. -/
theorem search_irc_logs_stats_correct (q : Str) (raw : List Str)
    (contents : Str → List TimedEvent) :
    (search_irc_logs q zeroStats raw contents).2.files = (fileList raw).length ∧
    (search_irc_logs q zeroStats raw contents).2.lines
      = ((fileList raw).map (fun f => (contents f.filename).length)).sum ∧
    (search_irc_logs q zeroStats raw contents).2.matchesFound
      = (search_irc_logs q zeroStats raw contents).1.length ∧
    (search_irc_logs q zeroStats raw contents).2.matchesFound
      ≤ (search_irc_logs q zeroStats raw contents).2.lines ∧
    (∀ n m,
      (runUpTo (lowerStr q) contents (fileList raw) n m zeroStats).2.matchesFound
        = (runUpTo (lowerStr q) contents (fileList raw) n m zeroStats).1.length ∧
      (runUpTo (lowerStr q) contents (fileList raw) n m zeroStats).1
        <+: (search_irc_logs q zeroStats raw contents).1) := by
  have hdef : search_irc_logs q zeroStats raw contents
      = searchFiles (lowerStr q) contents (fileList raw) zeroStats := rfl
  refine ⟨?_, ?_, ?_, ?_, ?_⟩
  · rw [hdef, searchFiles_stats_eq]
    simp [zeroStats]
  · rw [hdef, searchFiles_stats_eq]
    simp [zeroStats]
  · rw [hdef, searchFiles_matches_len]
    simp [zeroStats]
  · rw [hdef, searchFiles_stats_eq]
    simp only [zeroStats, Nat.zero_add]
    refine sum_map_le_sum_map _ _ _ ?_
    intro f _
    simp only [perFile, List.length_map]
    exact List.length_filter_le _ _
  · intro n m
    constructor
    · rw [runUpTo]
      cases hdrop : (fileList raw).drop n with
      | nil =>
        simp only [hdrop]
        rw [searchFiles_matches_len]
        simp [zeroStats]
      | cons f rest =>
        simp only [hdrop]
        rw [searchEvents_matches_len]
        simp [searchFiles_matches_len, zeroStats]
    · rw [hdef, runUpTo]
      cases hdrop : (fileList raw).drop n with
      | nil =>
        simp only [hdrop]
        have htake : (fileList raw).take n = fileList raw := by
          have h := List.take_append_drop n (fileList raw)
          rw [hdrop, List.append_nil] at h
          exact h
        rw [htake]
      | cons f rest =>
        simp only [hdrop]
        rw [searchFiles_results_eq, searchFiles_results_eq, searchEvents_results_eq]
        refine ⟨(((contents f.filename).drop m).filter (eventMatches (lowerStr q))).map
            (mkResult f) ++ ((rest.map (perFile (lowerStr q) contents)).flatten), ?_⟩
        conv_rhs => rw [← List.take_append_drop n (fileList raw), hdrop]
        rw [List.map_append, List.flatten_append, List.map_cons, List.flatten_cons]
        have hsplit : perFile (lowerStr q) contents f
            = (((contents f.filename).take m).filter (eventMatches (lowerStr q))).map
                (mkResult f)
              ++ (((contents f.filename).drop m).filter (eventMatches (lowerStr q))).map
                (mkResult f) := by
          rw [perFile, ← List.map_append, ← List.filter_append, List.take_append_drop]
        rw [hsplit]
        simp [List.append_assoc]

/-- Modelled from the spec: the renderer's participant→colour assignment
table (`NickColourizer`, in irclog2html.py, not under src/).  The first
reference to a nick allocates the next free colour; `change old new`
re-keys the old nick's colour to the new nick. -/
structure NickColours where
  table : List (Str × Nat)
  next : Nat
deriving DecidableEq

/-- A fresh colour table, as `NickColourizer()` constructs one.
`SearchResultFormatter.__init__` creates exactly one of these per
formatter. -/
def freshColours : NickColours := ⟨[], 0⟩

/-- Modelled from the spec: looking up a nick's colour
(`self.nick_colour[nick]`), allocating on first reference. -/
def getColour (st : NickColours) (nick : Str) : Nat × NickColours :=
  match st.table.find? (fun p => p.1 == nick) with
  | some p => (p.2, st)
  | none => (st.next, ⟨st.table ++ [(nick, st.next)], st.next + 1⟩)

/-- Modelled from the spec: `self.nick_colour.change(oldnick, newnick)`. -/
def changeNick (st : NickColours) (oldnick newnick : Str) : NickColours :=
  ⟨st.table.map (fun p => if p.1 == oldnick then (newnick, p.2) else p), st.next⟩

/-- `SearchResultFormatter.print_html`, restricted to its effect on the
colour table: a comment is rendered with the nick's (possibly freshly
allocated) colour; a nick change re-keys the table before rendering a
server message; any other event renders a server message with no colour
use. -/
def print_html (st : NickColours) (r : SearchResult) : Option Nat × NickColours :=
  match r.event with
  | .comment nick _ =>
    ((getColour st nick).1, (getColour st nick).2)
  | .nickchange _ oldnick newnick => (none, changeNick st oldnick newnick)
  | .other _ _ => (none, st)

/-- The colour trace of the `print_search_results` loop: one formatter,
created once, renders every result in stream order; the trace records
the colour used for each result. -/
def renderAll : List SearchResult → NickColours → List (Option Nat) × NickColours
  | [], st => ([], st)
  | r :: rest, st =>
    ((print_html st r).1 :: (renderAll rest (print_html st r).2).1,
     (renderAll rest (print_html st r).2).2)

/-- The date groups of a result stream: maximal runs of consecutive
results sharing a date — exactly where `print_search_results` opens a
new list item (`date != result.date`). -/
def groupByDate : List SearchResult → List (List SearchResult)
  | [] => []
  | [r] => [[r]]
  | r :: s :: rest =>
    match groupByDate (s :: rest) with
    | [] => [[r]]
    | g :: gs => if r.date == s.date then (r :: g) :: gs else [r] :: g :: gs

/-- Per-group colour traces with the colour state carried from one group
into the next (what the single formatter of `print_search_results`
actually does). -/
def runGroups : List (List SearchResult) → NickColours → List (List (Option Nat))
  | [], _ => []
  | g :: gs, st => (renderAll g st).1 :: runGroups gs (renderAll g st).2

/-- A comment result by `nick` on date `d`, for the counterexample. -/
def exResult (nick : Str) (d : Nat) : SearchResult :=
  ⟨"f".toList, "f.html".toList, d, "00:00".toList, .comment nick "hello".toList⟩

/-- A stream with two date groups: alice and bob speak on the first
date, bob again on the second. -/
def exStream : List SearchResult :=
  [exResult "alice".toList 20240101, exResult "bob".toList 20240101,
   exResult "bob".toList 20240102]

/-- C5 is false: rendering with the claimed per-date-group fresh colour
map does not reproduce the colours actually used — on `exStream`, bob's
line in the second date group is rendered with the colour allocated in
the first group (1), not the colour a fresh map would give (0). -/
theorem colour_reset_counterexample :
    ¬ (runGroups (groupByDate exStream) freshColours
        = (groupByDate exStream).map (fun g => (renderAll g freshColours).1)) := by
  decide

theorem renderAll_append (l1 l2 : List SearchResult) (st : NickColours) :
    renderAll (l1 ++ l2) st
      = ((renderAll l1 st).1 ++ (renderAll l2 (renderAll l1 st).2).1,
         (renderAll l2 (renderAll l1 st).2).2) := by
  induction l1 generalizing st with
  | nil => simp [renderAll]
  | cons r rest ih => simp [renderAll, ih]

theorem groupByDate_flatten : ∀ rs : List SearchResult, (groupByDate rs).flatten = rs
  | [] => rfl
  | [_] => rfl
  | r :: s :: rest => by
    have ih := groupByDate_flatten (s :: rest)
    simp only [groupByDate]
    cases hg : groupByDate (s :: rest) with
    | nil => rw [hg] at ih; simp at ih
    | cons g gs =>
      rw [hg] at ih
      simp only [List.flatten_cons] at ih
      by_cases hd : r.date == s.date
      · simp [hd, List.flatten_cons, ih]
      · simp [hd, List.flatten_cons, ih]

theorem runGroups_flatten (gs : List (List SearchResult)) (st : NickColours) :
    (renderAll gs.flatten st).1 = (runGroups gs st).flatten := by
  induction gs generalizing st with
  | nil => rfl
  | cons g rest ih =>
    simp only [List.flatten_cons, runGroups, renderAll_append, ih]

/-- C5 amended: `print_search_results` creates one formatter — one
colour table — for the whole stream, and that state persists across
every date-group boundary, never reset: the colour trace of the whole
run is the per-group traces each continuing from the state the previous
groups left behind (so assignments from earlier dates do influence later
dates' colours, as the counterexample shows). -/
theorem colour_state_persists (rs : List SearchResult) (st : NickColours) :
    (renderAll rs st).1 = (runGroups (groupByDate rs) st).flatten ∧
    (groupByDate rs).flatten = rs := by
  refine ⟨?_, groupByDate_flatten rs⟩
  rw [← runGroups_flatten, groupByDate_flatten]

/-- Bytes of an ASCII string literal. -/
def bytesOf (s : String) : List Nat := s.toList.map Char.toNat

/-- An HTTP-shaped response: status line, the `Content-Type` header, the
optional `Location` header, and the body bytes. -/
structure Response where
  status : String
  contentType : String
  location : Option String
  body : List Nat
deriving DecidableEq

/-- `get_path`, defined identically in irclogserver.py and
irclogsearch.py: strip the leading character of `PATH_INFO`; reject any
remaining path containing `'/'` or `'\\'`; an empty path becomes
`index.html`. -/
def get_path (pathInfo : Str) : Option Str :=
  let path := pathInfo.drop 1
  if path.contains '/' || path.contains '\\' then none
  else if path.isEmpty then some "index.html".toList else some path

/-- `application` from irclogserver.py.  External pieces are parameters:
`fs` maps a filename (a single component, joined under the base
directory) to its bytes if the file exists; `decodeLines` is the
`LogParser.decode`/UTF-8 re-encode comprehension applied to a text log's
bytes; `render` is `LogParser` + `XHTMLTableStyle` + `convert_irc_log`
on a raw transcript's bytes; `searchBody` is the page produced by
`search_page`; `cssFile` is the static stylesheet if present.  An
uncaught `IOError` (the unguarded second `open` in the `.html` branch)
is `Except.error ()`. -/
def application (fs : Str → Option (List Nat)) (decodeLines : List Nat → List Nat)
    (render : List Nat → List Nat) (searchBody : List Nat)
    (cssFile : Option (List Nat)) (pathInfo : Str) : Except Unit Response :=
  match get_path pathInfo with
  | none => .ok ⟨"404 Not Found", "text/plain", none, bytesOf "Not found"⟩
  | some path =>
    if path = "search".toList then
      .ok ⟨"200 Ok", "text/html; charset=UTF-8", none, searchBody⟩
    else if path = "irclog.css".toList then
      match cssFile with
      | some b => .ok ⟨"200 Ok", "text/css", none, b⟩
      | none => .ok ⟨"404 Not Found", "text/plain", none, bytesOf "Not found"⟩
    else
      match fs path with
      | some b =>
        if (".css".toList).isSuffixOf path then
          .ok ⟨"200 Ok", "text/css", none, b⟩
        else if (".log".toList).isSuffixOf path || (".txt".toList).isSuffixOf path then
          .ok ⟨"200 Ok", "text/plain; charset=UTF-8", none, decodeLines b⟩
        else
          .ok ⟨"200 Ok", "text/html; charset=UTF-8", none, b⟩
      | none =>
        if path = "index.html".toList then
          .ok ⟨"302 Found", "text/plain", some "/search", bytesOf "Try /search"⟩
        else if (".html".toList).isSuffixOf path then
          match fs (path.take (path.length - 5)) with
          | some b => .ok ⟨"200 Ok", "text/html; charset=UTF-8", none, render b⟩
          | none => .error ()
        else .ok ⟨"404 Not Found", "text/plain", none, bytesOf "Not found"⟩

/-- `wsgi` from irclogsearch.py.  Same external pieces where used; note
this handler has no on-the-fly `.html` rendering branch, never applies a
decode to served files, and only ever changes `content_type` in the
`.css`-name and extension checks — the 404/302 branches keep whatever
content type was already computed. -/
def wsgi (fs : Str → Option (List Nat)) (searchBody : List Nat)
    (cssFile : Option (List Nat)) (pathInfo : Str) : Response :=
  match get_path pathInfo with
  | none => ⟨"404 Not Found", "text/html; charset=UTF-8", none, bytesOf "Not found"⟩
  | some path =>
    if path = "search".toList then
      ⟨"200 Ok", "text/html; charset=UTF-8", none, searchBody⟩
    else if path = "irclog.css".toList then
      match cssFile with
      | some b => ⟨"200 Ok", "text/css", none, b⟩
      | none => ⟨"404 Not Found", "text/css", none, bytesOf "Not found"⟩
    else
      let ct1 := if (".css".toList).isSuffixOf path then "text/css"
                 else "text/html; charset=UTF-8"
      let ct := if (".log".toList).isSuffixOf path || (".txt".toList).isSuffixOf path
                then "text/plain" else ct1
      match fs path with
      | some b => ⟨"200 Ok", ct, none, b⟩
      | none =>
        if path = "index.html".toList then
          ⟨"302 Found", ct, some "/search", bytesOf "Try /search"⟩
        else ⟨"404 Not Found", ct, none, bytesOf "Not found"⟩

theorem get_path_separator (p : Str) (h : '/' ∈ p ∨ '\\' ∈ p) :
    get_path ('/' :: p) = none := by
  have hc : (p.contains '/' || p.contains '\\') = true := by
    simp only [List.contains_eq_any_beq, List.any_eq_true, Bool.or_eq_true]
    rcases h with h | h
    · exact Or.inl ⟨'/', h, rfl⟩
    · exact Or.inr ⟨'\\', h, rfl⟩
  show (if p.contains '/' || p.contains '\\' then none
        else if p.isEmpty then some "index.html".toList else some p) = none
  exact if_pos hc

/-- C3 as stated is false: irclogsearch's `wsgi` rejects a
separator-containing path with 404, but its `content_type` is never
changed from the default, so the response is `text/html; charset=UTF-8`,
not `text/plain`. -/
theorem separator_content_type_counterexample :
    (wsgi (fun _ => none) [] none ("/a/b".toList)).contentType
        = "text/html; charset=UTF-8" ∧
      "text/html; charset=UTF-8" ≠ "text/plain" := by
  exact ⟨rfl, by decide⟩

/-- C3 amended: for every inbound path whose relative part contains a
path separator, both handlers reject without consulting the filesystem
(the response is a constant, independent of every external parameter)
and respond 404 — `application` with content type `text/plain`, `wsgi`
with the default `text/html; charset=UTF-8`. -/
theorem separator_reject (p : Str) (h : '/' ∈ p ∨ '\\' ∈ p)
    (fs : Str → Option (List Nat)) (decodeLines render : List Nat → List Nat)
    (searchBody : List Nat) (cssFile : Option (List Nat))
    (fs2 : Str → Option (List Nat)) (searchBody2 : List Nat)
    (cssFile2 : Option (List Nat)) :
    application fs decodeLines render searchBody cssFile ('/' :: p)
        = .ok ⟨"404 Not Found", "text/plain", none, bytesOf "Not found"⟩ ∧
      wsgi fs2 searchBody2 cssFile2 ('/' :: p)
        = ⟨"404 Not Found", "text/html; charset=UTF-8", none, bytesOf "Not found"⟩ := by
  rw [application.eq_def, wsgi.eq_def, get_path_separator p h]
  exact ⟨rfl, rfl⟩

/-- Witness for the amended C3 at the concrete path `a/b`. -/
theorem separator_reject_witness :
    application (fun _ => none) id id [] none ('/' :: "a/b".toList)
        = .ok ⟨"404 Not Found", "text/plain", none, bytesOf "Not found"⟩ ∧
      wsgi (fun _ => none) [] none ('/' :: "a/b".toList)
        = ⟨"404 Not Found", "text/html; charset=UTF-8", none, bytesOf "Not found"⟩ :=
  separator_reject ("a/b".toList) (by decide) (fun _ => none) id id [] none
    (fun _ => none) [] none

/-- C7: an empty inbound path (`PATH_INFO` of `/` or empty) is treated
exactly as `index.html`, and when `index.html` is not on disk
`application` responds `302 Found` with `Location: /search` and a
`text/plain` body. -/
theorem empty_path_index_redirect (fs : Str → Option (List Nat))
    (decodeLines render : List Nat → List Nat) (searchBody : List Nat)
    (cssFile : Option (List Nat)) :
    application fs decodeLines render searchBody cssFile ("/".toList)
        = application fs decodeLines render searchBody cssFile ("/index.html".toList) ∧
      application fs decodeLines render searchBody cssFile []
        = application fs decodeLines render searchBody cssFile ("/index.html".toList) ∧
      (fs ("index.html".toList) = none →
        application fs decodeLines render searchBody cssFile ("/".toList)
          = .ok ⟨"302 Found", "text/plain", some "/search", bytesOf "Try /search"⟩) := by
  refine ⟨rfl, rfl, ?_⟩
  intro hfs
  simp at hfs
  simp [application, get_path, hfs]

/-- Witness for C7 on an empty filesystem. -/
theorem empty_path_index_redirect_witness :
    application (fun _ => none) id id [] none ("/".toList)
      = .ok ⟨"302 Found", "text/plain", some "/search", bytesOf "Try /search"⟩ :=
  (empty_path_index_redirect (fun _ => none) id id [] none).2.2 rfl

/-- C9 is a code bug: when a `.html` path does not resolve and the
stripped name does, `application` renders it (200, text/html) as the
claim says — but when neither exists, the second `open` raises an
`IOError` *inside* the `except IOError:` handler of the first, which no
enclosing handler catches, so the request fails instead of returning the
claimed 404: the model evaluates to `Except.error ()`. -/
theorem html_render_missing_raises :
    application (fun _ => none) id id [] none ("/missing.html".toList)
        = .error () ∧
      application
          (fun p => if p = "page".toList then some [104] else none)
          id (fun b => b ++ [33]) [] none ("/page.html".toList)
        = .ok ⟨"200 Ok", "text/html; charset=UTF-8", none, [104, 33]⟩ := by
  exact ⟨rfl, rfl⟩

/-- C6 as stated is false in two places: a file with an unknown
extension is served with the *default* `text/html; charset=UTF-8`
content type, not octet-stream; and irclogsearch's `wsgi` serves a
`.log` file's raw bytes (here the single byte 0xC8 = 200) with no
re-decode — re-decoding latin-1 and re-encoding UTF-8 would have
produced `[195, 136]`. -/
theorem content_type_counterexample :
    application (fun p => if p = "data.bin".toList then some [1, 2, 3] else none)
        id id [] none ("/data.bin".toList)
        = .ok ⟨"200 Ok", "text/html; charset=UTF-8", none, [1, 2, 3]⟩ ∧
      "text/html; charset=UTF-8" ≠ "application/octet-stream" ∧
      (wsgi (fun p => if p = "chan.log".toList then some [200] else none) [] none
          ("/chan.log".toList)).body = [200] ∧
      ([200] : List Nat) ≠ [195, 136] := by
  exact ⟨rfl, by decide, rfl, by decide⟩

theorem get_path_plain (p : Str) (h1 : '/' ∉ p) (h2 : '\\' ∉ p) (h3 : p ≠ []) :
    get_path ('/' :: p) = some p := by
  show (if p.contains '/' || p.contains '\\' then none
        else if p.isEmpty then some "index.html".toList else some p) = some p
  have hc : ¬ ((p.contains '/' || p.contains '\\') = true) := by
    simp only [List.contains_eq_any_beq, List.any_eq_true, Bool.or_eq_true]
    rintro (⟨x, hx, hb⟩ | ⟨x, hx, hb⟩)
    · rw [← eq_of_beq hb] at hx; exact h1 hx
    · rw [← eq_of_beq hb] at hx; exact h2 hx
  rw [if_neg hc, if_neg (by simpa using h3)]

/-- C6 amended: a path resolving to an existing file is served with
status 200, the content type chosen by extension — `text/css` for
`.css`; for `.log`/`.txt`, `text/plain; charset=UTF-8` in `application`
and bare `text/plain` in `wsgi`; and the default
`text/html; charset=UTF-8` (not octet-stream) otherwise — and the body
is the re-decoded/re-encoded bytes only in `application`'s text-log
case, raw bytes everywhere else (in particular always raw in `wsgi`). -/
theorem existing_file_serving (fs : Str → Option (List Nat))
    (decodeLines render : List Nat → List Nat) (searchBody : List Nat)
    (cssFile : Option (List Nat)) (searchBody2 : List Nat)
    (cssFile2 : Option (List Nat)) (p : Str) (b : List Nat)
    (hfs : fs p = some b)
    (hsep1 : '/' ∉ p) (hsep2 : '\\' ∉ p) (hne : p ≠ [])
    (hs : p ≠ "search".toList) (hcss : p ≠ "irclog.css".toList) :
    ((".css".toList).isSuffixOf p = true →
      ((".log".toList).isSuffixOf p || (".txt".toList).isSuffixOf p) = false →
        application fs decodeLines render searchBody cssFile ('/' :: p)
            = .ok ⟨"200 Ok", "text/css", none, b⟩ ∧
          wsgi fs searchBody2 cssFile2 ('/' :: p)
            = ⟨"200 Ok", "text/css", none, b⟩) ∧
    ((".css".toList).isSuffixOf p = false →
      ((".log".toList).isSuffixOf p || (".txt".toList).isSuffixOf p) = true →
        application fs decodeLines render searchBody cssFile ('/' :: p)
            = .ok ⟨"200 Ok", "text/plain; charset=UTF-8", none, decodeLines b⟩ ∧
          wsgi fs searchBody2 cssFile2 ('/' :: p)
            = ⟨"200 Ok", "text/plain", none, b⟩) ∧
    ((".css".toList).isSuffixOf p = false →
      ((".log".toList).isSuffixOf p || (".txt".toList).isSuffixOf p) = false →
        application fs decodeLines render searchBody cssFile ('/' :: p)
            = .ok ⟨"200 Ok", "text/html; charset=UTF-8", none, b⟩ ∧
          wsgi fs searchBody2 cssFile2 ('/' :: p)
            = ⟨"200 Ok", "text/html; charset=UTF-8", none, b⟩) := by
  have hg := get_path_plain p hsep1 hsep2 hne
  simp only [ne_eq] at hs hcss
  simp at hs hcss
  refine ⟨fun hc hl => ?_, fun hc hl => ?_, fun hc hl => ?_⟩ <;>
    (simp at hc hl
     simp [application.eq_def, wsgi.eq_def, hg, hs, hcss, hfs, hc, hl])

/-- Witness for the amended C6: a `.log` file is served by both
handlers, transformed only by `application`. -/
theorem existing_file_serving_witness :
    application (fun p => if p = "chan.2024-01-01.log".toList then some [65] else none)
        (fun l => 0 :: l) id [] none ('/' :: "chan.2024-01-01.log".toList)
        = .ok ⟨"200 Ok", "text/plain; charset=UTF-8", none, [0, 65]⟩ ∧
      wsgi (fun p => if p = "chan.2024-01-01.log".toList then some [65] else none)
          [] none ('/' :: "chan.2024-01-01.log".toList)
        = ⟨"200 Ok", "text/plain", none, [65]⟩ :=
  (existing_file_serving
      (fun p => if p = "chan.2024-01-01.log".toList then some [65] else none)
      (fun l => 0 :: l) id [] none [] none ("chan.2024-01-01.log".toList) [65]
      (by decide) (by decide) (by decide) (by decide) (by decide) (by decide)).2.1
    (by decide) (by decide)

/-- One chunk of output written by `print_search_results`, one
constructor per `print` call / formatter call, in source order:
`header` is the HEADER block with the `<h1>` heading, `searchForm` the
query-echo form, `styleOpen`/`styleClose` the formatter's
`print_prefix`/`print_suffix`, `liOpen`/`liClose` the
`  <li><a ...>date:` and `  </li>` prints, `ulOpen`/`ulClose` the
`<ul class="searchresults">` and `</ul>` prints, `htmlRow` a
`print_html(result)` call, `statsLine` the
`%d matches in %d log files with %d lines (%.1f seconds)` line (elapsed
wall-clock time carried as tenths of a second), `footer` the FOOTER
block. -/
inductive Chunk
  | header
  | searchForm (q : Str)
  | styleOpen
  | styleClose
  | ulOpen
  | ulClose
  | liOpen (link : Str) (date : Nat)
  | liClose
  | htmlRow (r : SearchResult)
  | statsLine (matchCount fileCount lineCount secsTenths : Nat)
  | footer
deriving DecidableEq

def Chunk.isListMarkup : Chunk → Bool
  | .ulOpen | .ulClose | .liOpen _ _ | .liClose => true
  | _ => false

def Chunk.isStatsLine : Chunk → Bool
  | .statsLine _ _ _ _ => true
  | _ => false

def Chunk.isLiOpen : Chunk → Bool
  | .liOpen _ _ => true
  | _ => false

def Chunk.isLiClose : Chunk → Bool
  | .liClose => true
  | _ => false

def Chunk.isStyleOpen : Chunk → Bool
  | .styleOpen => true
  | _ => false

def Chunk.isStyleClose : Chunk → Bool
  | .styleClose => true
  | _ => false

/-- The result loop of `print_search_results`, with its two pieces of
loop state: `date` (the date of the group being rendered, `None`
before the first result) and `prev` (whether a `print_prefix` is open,
i.e. `prev_result` is set).  On a date change: close the open prefix
and list item (or open the `<ul>` if this is the first result), open
the new date's list item; then print a prefix if none is open and
render the result.  After the loop: close any open prefix and list
item/list. -/
def psrLoop : List SearchResult → Option Nat → Bool → List Chunk
  | [], date, prev =>
    (if prev then [Chunk.styleClose] else []) ++
    (if date.isSome then [Chunk.liClose, Chunk.ulClose] else [])
  | r :: rest, date, prev =>
    if date = some r.date then
      (if prev then [] else [Chunk.styleOpen]) ++
      (Chunk.htmlRow r :: psrLoop rest date true)
    else
      (if prev then [Chunk.styleClose] else []) ++
      (if date.isSome then [Chunk.liClose] else [Chunk.ulOpen]) ++
      (Chunk.liOpen r.link r.date :: Chunk.styleOpen :: Chunk.htmlRow r ::
        psrLoop rest (some r.date) true)

/-- `print_search_results` from irclogsearch.py as its chunk stream:
header and query form, the result loop over the stream produced by
`search_irc_logs` with a fresh `SearchStats`, the statistics line with
the final counters, and the footer. -/
def print_search_results (q : Str) (raw : List Str)
    (contents : Str → List TimedEvent) (elapsedTenths : Nat) : List Chunk :=
  Chunk.header :: Chunk.searchForm q ::
    (psrLoop (search_irc_logs q zeroStats raw contents).1 none false ++
      [Chunk.statsLine (search_irc_logs q zeroStats raw contents).2.matchesFound
          (search_irc_logs q zeroStats raw contents).2.files
          (search_irc_logs q zeroStats raw contents).2.lines elapsedTenths,
        Chunk.footer])

theorem psrLoop_no_stats :
    ∀ (rs : List SearchResult) (date : Option Nat) (prev : Bool),
      (psrLoop rs date prev).countP Chunk.isStatsLine = 0 := by
  intro rs
  induction rs with
  | nil =>
    intro date prev
    cases date <;> cases prev <;>
      simp [psrLoop, List.countP_cons, Chunk.isStatsLine]
  | cons r rest ih =>
    intro date prev
    simp only [psrLoop]
    by_cases hb : date = some r.date
    · rw [if_pos hb]
      cases prev <;>
        simp [List.countP_append, List.countP_cons, ih, Chunk.isStatsLine]
    · rw [if_neg hb]
      cases date <;> cases prev <;>
        simp [List.countP_append, List.countP_cons, ih, Chunk.isStatsLine]

theorem takeWhile_append_of_all {α : Type} (p : α → Bool) :
    ∀ (l1 l2 : List α), (∀ c ∈ l1, p c = true) →
      (l1 ++ l2).takeWhile p = l1 ++ l2.takeWhile p := by
  intro l1 l2
  induction l1 with
  | nil => intro _; rfl
  | cons a rest ih =>
    intro h
    simp only [List.cons_append, List.takeWhile_cons,
      h a (List.mem_cons_self a rest)]
    rw [ih (fun c hc => h c (List.mem_cons_of_mem a hc))]
    simp

theorem psrLoop_li_balance :
    ∀ (rs : List SearchResult) (date : Option Nat) (prev : Bool),
      (psrLoop rs date prev).countP Chunk.isLiClose
        = (psrLoop rs date prev).countP Chunk.isLiOpen
          + (if date.isSome then 1 else 0) := by
  intro rs
  induction rs with
  | nil =>
    intro date prev
    cases date <;> cases prev <;>
      simp [psrLoop, List.countP_cons, List.countP_append,
        Chunk.isLiClose, Chunk.isLiOpen]
  | cons r rest ih =>
    intro date prev
    simp only [psrLoop]
    by_cases hb : date = some r.date
    · rw [if_pos hb]
      subst hb
      cases prev <;>
        simp [List.countP_append, List.countP_cons, ih,
          Chunk.isLiClose, Chunk.isLiOpen]
    · rw [if_neg hb]
      cases date <;> cases prev <;>
        simp [List.countP_append, List.countP_cons, ih,
          Chunk.isLiClose, Chunk.isLiOpen]

theorem psrLoop_style_balance :
    ∀ (rs : List SearchResult) (date : Option Nat) (prev : Bool),
      (psrLoop rs date prev).countP Chunk.isStyleClose
        = (psrLoop rs date prev).countP Chunk.isStyleOpen
          + (if prev then 1 else 0) := by
  intro rs
  induction rs with
  | nil =>
    intro date prev
    cases date <;> cases prev <;>
      simp [psrLoop, List.countP_cons, List.countP_append,
        Chunk.isStyleClose, Chunk.isStyleOpen]
  | cons r rest ih =>
    intro date prev
    simp only [psrLoop]
    by_cases hb : date = some r.date
    · rw [if_pos hb]
      cases prev <;>
        simp [List.countP_append, List.countP_cons, ih,
          Chunk.isStyleClose, Chunk.isStyleOpen]
    · rw [if_neg hb]
      cases date <;> cases prev <;>
        simp [List.countP_append, List.countP_cons, ih,
          Chunk.isStyleClose, Chunk.isStyleOpen]

/-- C8: with zero results no list markup at all is emitted (not even an
empty `<ul>`); the statistics line carrying the final counters and the
elapsed time is emitted in every case; and in the output preceding the
statistics line the `<li>` opens equal the `</li>` closes and the
formatter prefixes equal the suffixes — everything opened is closed
before the statistics line. -/
theorem print_search_results_markup (q : Str) (raw : List Str)
    (contents : Str → List TimedEvent) (t : Nat) :
    ((search_irc_logs q zeroStats raw contents).1 = [] →
      (print_search_results q raw contents t).countP Chunk.isListMarkup = 0) ∧
    Chunk.statsLine (search_irc_logs q zeroStats raw contents).2.matchesFound
        (search_irc_logs q zeroStats raw contents).2.files
        (search_irc_logs q zeroStats raw contents).2.lines t
      ∈ print_search_results q raw contents t ∧
    ((print_search_results q raw contents t).takeWhile
        (fun c => !(Chunk.isStatsLine c))).countP Chunk.isLiOpen
      = ((print_search_results q raw contents t).takeWhile
          (fun c => !(Chunk.isStatsLine c))).countP Chunk.isLiClose ∧
    ((print_search_results q raw contents t).takeWhile
        (fun c => !(Chunk.isStatsLine c))).countP Chunk.isStyleOpen
      = ((print_search_results q raw contents t).takeWhile
          (fun c => !(Chunk.isStatsLine c))).countP Chunk.isStyleClose := by
  have hnot : ∀ c ∈ psrLoop (search_irc_logs q zeroStats raw contents).1 none false,
      (fun c => !(Chunk.isStatsLine c)) c = true := by
    intro c hc
    have h0 := psrLoop_no_stats (search_irc_logs q zeroStats raw contents).1 none false
    have h1 := (List.countP_eq_zero.1 h0) c hc
    simp only [Bool.not_eq_true'] at h1 ⊢
    simp [h1]
  have hpre : (print_search_results q raw contents t).takeWhile
        (fun c => !(Chunk.isStatsLine c))
      = Chunk.header :: Chunk.searchForm q ::
          psrLoop (search_irc_logs q zeroStats raw contents).1 none false := by
    simp only [print_search_results]
    rw [List.takeWhile_cons_of_pos (by rfl), List.takeWhile_cons_of_pos (by rfl),
      takeWhile_append_of_all _ _ _ hnot,
      List.takeWhile_cons_of_neg (by simp [Chunk.isStatsLine])]
    simp
  refine ⟨?_, ?_, ?_, ?_⟩
  · intro h
    simp [print_search_results, h, psrLoop, List.countP_cons, List.countP_append,
      Chunk.isListMarkup]
  · simp [print_search_results]
  · rw [hpre]
    simp only [List.countP_cons, Chunk.isLiOpen, Chunk.isLiClose]
    have h1 := psrLoop_li_balance (search_irc_logs q zeroStats raw contents).1 none false
    simp only [Option.isSome_none, Bool.false_eq_true, if_false, Nat.add_zero] at h1
    simp [Chunk.isLiOpen, Chunk.isLiClose, h1]
  · rw [hpre]
    have h1 := psrLoop_style_balance (search_irc_logs q zeroStats raw contents).1 none false
    simp only [Bool.false_eq_true, if_false, Nat.add_zero] at h1
    simp [List.countP_cons, Chunk.isStyleOpen, Chunk.isStyleClose, h1]

/-- Witness for C8, first conjunct: an empty corpus yields zero results
and no list markup. -/
theorem print_search_results_markup_witness :
    (print_search_results "x".toList [] (fun _ => []) 0).countP Chunk.isListMarkup = 0 :=
  (print_search_results_markup "x".toList [] (fun _ => []) 0).1 rfl
